import Mathlib

/-!
Shallow embedding of `fetcher.py` (arso-meteo-dl): a script that downloads
historical weather-station measurements from the ARSO WebMet archive API,
rebuilds station identity across id changes, and reshapes the results into
tables.  Python exceptions are modelled with `Except PyErr`, Python `None`
with `Option`, Python numbers with `Rat`, and the pandas data frames with an
explicit ordered row/column representation.
-/

/-- The Python exceptions that the embedded code can raise.
`valueError` carries its message/payload string (used by `pujs_to_json`,
which raises `ValueError(data_str)`). -/
inductive PyErr where
  | typeError
  | keyError
  | attributeError
  | parseError
  | illegalMonthError
  | valueError (payload : String)
deriving Repr, DecidableEq

instance {α β : Type} [DecidableEq α] [DecidableEq β] : DecidableEq (Except α β) :=
  fun x y =>
    match x, y with
    | .ok a, .ok b => decidable_of_iff (a = b) (by simp)
    | .error a, .error b => decidable_of_iff (a = b) (by simp)
    | .ok _, .error _ => isFalse (by simp)
    | .error _, .ok _ => isFalse (by simp)

/-! ## Date Range Helper (`WebMetUtils.get_dates_for_month`) -/

/-- Models `calendar.isleap`: the Gregorian leap-year rule. -/
def isleap (year : Nat) : Bool :=
  year % 4 == 0 && (year % 100 != 0 || year % 400 == 0)

/-- Models `calendar.mdays`: day counts per month, index 0 unused. -/
def mdays : List Nat := [0, 31, 28, 31, 30, 31, 30, 31, 31, 30, 31, 30, 31]

/-- Models `calendar.monthrange(year, month)[1]`: the number of days in the
month, `mdays[month] + (month == FEBRUARY and isleap(year))`; raises
`IllegalMonthError` for a month outside 1..12. -/
def monthrange_days (year month : Nat) : Except PyErr Nat :=
  if 1 ≤ month ∧ month ≤ 12 then
    .ok (mdays.getD month 0 + if month = 2 ∧ isleap year then 1 else 0)
  else
    .error .illegalMonthError

/-- Zero-pad a number to at least two digits, as `%m`/`%d` in `strftime`. -/
def pad2 (n : Nat) : String :=
  if n < 10 then "0" ++ toString n else toString n

/-- Zero-pad a year to at least four digits, as `%Y` in `strftime`. -/
def pad4 (n : Nat) : String :=
  if n < 10 then "000" ++ toString n
  else if n < 100 then "00" ++ toString n
  else if n < 1000 then "0" ++ toString n
  else toString n

/-- Models `datetime(year, month, day).strftime("%Y-%m-%d")`. -/
def iso_date (year month day : Nat) : String :=
  pad4 year ++ "-" ++ pad2 month ++ "-" ++ pad2 day

/-- Models `WebMetUtils.get_dates_for_month`: `calendar.monthrange` gives the
last day of the month (raising `IllegalMonthError` for an invalid month),
then `datetime(year, month, 1)` / `datetime(year, month, last_day)` are
rendered as ISO dates.  The `datetime` constructor raises `ValueError` for a
year outside `datetime.MINYEAR..datetime.MAXYEAR = 1..9999`. -/
def get_dates_for_month (year month : Nat) : Except PyErr (String × String) := do
  let last_day ← monthrange_days year month
  if 1 ≤ year ∧ year ≤ 9999 then
    .ok (iso_date year month 1, iso_date year month last_day)
  else
    .error (.valueError "year is out of range")

/-! ## Response Decoder (`WebMetUtils.pujs_to_json`) -/

/-- The `{` character, written via its code point. -/
def lbrace : Char := Char.ofNat 123

/-- The `}` character, written via its code point. -/
def rbrace : Char := Char.ofNat 125

/-- The decoded payload values: a JavaScript-object-literal value as loaded
by `json5.loads` — a string, a number, or an object (kept as an ordered
association list, later keys shadowing earlier ones as in a Python dict). -/
inductive JValue where
  | str (s : String)
  | num (q : Rat)
  | obj (fields : List (String × JValue))

/-- Models `data_str.replace(":,", ":'',")` from `pujs_to_json`: Python's
`str.replace` scans left to right, replacing non-overlapping occurrences and
resuming after each replacement. -/
def repairEmptyValues : List Char → List Char
  | [] => []
  | [c] => [c]
  | a :: b :: rest =>
    if a = ':' ∧ b = ',' then ':' :: '\'' :: '\'' :: ',' :: repairEmptyValues rest
    else a :: repairEmptyValues (b :: rest)

/-- Characters accepted in an unquoted object key by the lenient parser. -/
def isIdentChar (c : Char) : Bool :=
  c.isAlpha || c.isDigit || c == '_'

/-- Digit-string to number: `"123" ↦ 123`. -/
def natOfDigits (cs : List Char) : Nat :=
  cs.foldl (fun a c => a * 10 + (c.toNat - 48)) 0

/-- Assemble a decimal literal `[-]ip[.fp]` into a rational. -/
def ratOfParts (neg : Bool) (ip fp : List Char) : Rat :=
  (if neg then -(natOfDigits (ip ++ fp) : Rat) else (natOfDigits (ip ++ fp) : Rat))
    / (10 : Rat) ^ fp.length

/-- Parse a decimal number literal (optional sign, digits, optional decimal
fraction) off the front of the input. -/
def parseNumber (cs : List Char) : Option (JValue × List Char) :=
  let neg : Bool := cs.head? = some '-'
  let cs1 := if neg then cs.tail else cs
  let ip := cs1.takeWhile (·.isDigit)
  if ip = [] then none
  else
    let cs2 := cs1.drop ip.length
    if cs2.head? = some '.' then
      let fp := cs2.tail.takeWhile (·.isDigit)
      if fp = [] then none
      else some (.num (ratOfParts neg ip fp), cs2.tail.drop fp.length)
    else some (.num (ratOfParts neg ip []), cs2)

mutual

/-- Modelled from the spec: one half of the third-party lenient
object-literal parser (`json5.loads`), which is not part of this repository.
Parses one value — a single-quoted string, a decimal number, or a nested
object — off the front of the input, restricted to the whitespace-free
payload shapes this API emits.  `fuel` bounds the recursion depth; callers
supply more fuel than the input length. -/
def parseJValue : Nat → List Char → Option (JValue × List Char)
  | 0, _ => none
  | _ + 1, [] => none
  | fuel + 1, c :: rest =>
    if c = '\'' then
      let sChars := rest.takeWhile (· ≠ '\'')
      let rest1 := rest.drop sChars.length
      if rest1.head? = some '\'' then some (.str (String.mk sChars), rest1.tail)
      else none
    else if c = lbrace then
      match parseJPairs fuel rest with
      | some (fields, rest2) => some (.obj fields, rest2)
      | none => none
    else if c.isDigit ∨ c = '-' then parseNumber (c :: rest)
    else none

/-- Modelled from the spec: the other half of the lenient object-literal
parser — the body of an object after its opening brace: `key:value` pairs
separated by commas, unquoted keys, a trailing comma tolerated, closed by
the closing brace. -/
def parseJPairs : Nat → List Char → Option (List (String × JValue) × List Char)
  | 0, _ => none
  | _ + 1, [] => none
  | fuel + 1, c :: rest =>
    if c = rbrace then some ([], rest)
    else
      let key := (c :: rest).takeWhile isIdentChar
      if key = [] then none
      else
        let after := (c :: rest).drop key.length
        if after.head? = some ':' then
          match parseJValue fuel after.tail with
          | some (v, restV) =>
            if restV.head? = some ',' then
              match parseJPairs fuel restV.tail with
              | some (ps, r) => some ((String.mk key, v) :: ps, r)
              | none => none
            else if restV.head? = some rbrace then some ([(String.mk key, v)], restV.tail)
            else none
          | none => none
        else none

end

/-- Modelled from the spec: `json5.loads` — parse the full input as one
lenient object-literal value; `none` models the parser raising. -/
def json5_loads (cs : List Char) : Option JValue :=
  match parseJValue (cs.length + 1) cs with
  | some (v, []) => some v
  | _ => none

/-- Models `xml.etree.ElementTree.fromstring` restricted to the shape the
WebMet API returns — a single element `<tag>text</tag>` with no attributes
and no children: yields the root element's text (`none` when the element is
empty, as `root.text` is then Python `None`); anything else raises
`ParseError`. -/
def ET_fromstring (s : String) : Except PyErr (Option String) :=
  match s.data with
  | '<' :: rest =>
    let tag := rest.takeWhile (· ≠ '>')
    if tag = [] then .error .parseError
    else
      match rest.drop tag.length with
      | '>' :: rest2 =>
        let body := rest2.takeWhile (· ≠ '<')
        if rest2.drop body.length = '<' :: '/' :: (tag ++ ['>']) then
          .ok (if body = [] then none else some (String.mk body))
        else .error .parseError
      | _ => .error .parseError
  | _ => .error .parseError

/-- Models `WebMetUtils.pujs_to_json`: parse the XML envelope, take
`root.text[16:-1]` (slicing Python `None` raises `TypeError`), repair the
known malformed empty-value pattern via `replace(":,", ":'',")`, then load
the repaired text with the lenient parser, re-raising its failure as
`ValueError(data_str)`. -/
def pujs_to_json (response_str : String) : Except PyErr JValue := do
  let text? ← ET_fromstring response_str
  match text? with
  | none => .error .typeError
  | some rootText =>
    let data_str := ((rootText.data.drop 16).dropLast)
    let data_str := repairEmptyValues data_str
    match json5_loads data_str with
    | some v => .ok v
    | none => .error (.valueError (String.mk data_str))

/-! ## Data Fetcher (`WebMetData`) -/

/-- A year–month pair, as the `(year, month)` tuples of the source. -/
abbrev YM := Nat × Nat

/-- Models the HTTP layer's answer to one request: `response.ok` and
`response.text`.  The network is supplied to the embedded code as a function
from the encoded query parameters to a response. -/
structure HttpResponse where
  ok : Bool
  text : String

/-- The query parameters built by `WebMetData._fetch` for the `data.xml`
endpoint, in source order. -/
def data_request_params (vars : List Int) (group type_ : String) (station_id : Int)
    (start_date end_date : String) : List (String × String) :=
  [("vars", String.intercalate "," (vars.map toString)),
   ("group", group), ("type", type_), ("id", toString station_id),
   ("d1", start_date), ("d2", end_date), ("lang", "si")]

/-- Subscripting a decoded payload, `value[key]`, as Python does it: a
`KeyError` when the key is absent, a `TypeError` when the value is not a
dict.  Looks up the last binding, matching Python dict construction where
later duplicate keys shadow earlier ones. -/
def jGet (v : JValue) (key : String) : Except PyErr JValue :=
  match v with
  | .obj fields =>
    match fields.reverse.lookup key with
    | some w => .ok w
    | none => .error .keyError
  | _ => .error .typeError

/-- Models `WebMetData._fetch`: builds the query, issues the request through
the supplied HTTP layer, and returns
`WebMetUtils.pujs_to_json(response.text) if response.ok else None`. -/
def WebMetData_fetch (http : List (String × String) → HttpResponse)
    (vars : List Int) (group type_ : String) (station_id : Int)
    (start_date end_date : String) : Except PyErr (Option JValue) :=
  let response := http (data_request_params vars group type_ station_id start_date end_date)
  if response.ok then do
    let v ← pujs_to_json response.text
    .ok (some v)
  else
    .ok none

/-- Models `WebMetData.fetch_data_for_month`: computes the month's date
range, fetches via `_fetch`, then remaps each response-local variable handle
(`p29`, `p30`, …) of `data["points"]["_<station_id>"]` to its canonical
name through `data["params"][id_key]["name"]`.  Note the remapping
subscripts `data` unconditionally, so a `None` from `_fetch` is subscripted
(Python `TypeError`). -/
def fetch_data_for_month (http : List (String × String) → HttpResponse)
    (station_id : Int) (year_month_tuple : YM) (vars : List Int) :
    Except PyErr (List (String × JValue)) := do
  let (year, month) := year_month_tuple
  let dates ← get_dates_for_month year month
  let data? ← WebMetData_fetch http vars "monthlyData1" "monthly" station_id dates.1 dates.2
  match data? with
  | none => .error .typeError
  | some data => do
    let params ← jGet data "params"
    let points ← jGet data "points"
    let stationPoints ← jGet points ("_" ++ toString station_id)
    match stationPoints with
    | .obj items =>
      items.mapM (fun idVal => do
        let entry ← jGet params idVal.1
        let nameV ← jGet entry "name"
        match nameV with
        | .str name => .ok (name, idVal.2)
        | _ => .error .typeError)
    | _ => .error .typeError

/-! ## Location Directory (`Locations`) -/

/-- The per-station metadata carried by one entry of a `locations.xml`
response's `points` dict: display name and coordinates. -/
structure LocMeta where
  name : String
  lon : Rat
  lat : Rat
  alt : Rat
deriving Repr, DecidableEq

/-- One entry of the persisted `locations_all` artifact: the station id key
(of the form `"_1639"`), its metadata, and every `(year, month)` the id was
seen in, in sweep order. -/
structure LocEntry where
  id : String
  meta : LocMeta
  year_months : List YM
deriving Repr, DecidableEq

/-- The sweep's work list,
`[(year, month) for month in range(1, 13) for year in range(1948, 2023)]`:
month is the outer loop, year the inner, and the years are the hardcoded
1948–2022. -/
def sweep_year_months : List YM :=
  (((List.range 12).map (· + 1)).map
    (fun month => ((List.range 75).map (· + 1948)).map (fun year => (year, month)))).flatten

/-- One step of the sweep dict update: append the `(year, month)` to the
record of an id already present, otherwise create a new record holding this
first sighting. -/
def addSighting (acc : List LocEntry) (id : String) (meta : LocMeta) (ym : YM) :
    List LocEntry :=
  if acc.any (fun e => e.id == id) then
    acc.map (fun e => if e.id == id then { e with year_months := e.year_months ++ [ym] } else e)
  else
    acc ++ [{ id := id, meta := meta, year_months := [ym] }]

/-- Models `Locations._download_all_locations`: for every `(year, month)` of
the sweep, fold the `points` of the fetched locations response into the
accumulated dict (`fetchPoints` supplies the decoded `points` of each
response).  Returns the dict that the source serializes into
`locations_all.txt`; the source does not assign it to `_all_locations`. -/
def download_all_locations (fetchPoints : YM → List (String × LocMeta)) : List LocEntry :=
  sweep_year_months.foldl
    (fun acc ym => (fetchPoints ym).foldl (fun acc p => addSighting acc p.1 p.2 ym) acc)
    []

/-- The in-memory state of a `Locations` object after `__init__`:
`_all_locations` is `none` when the attribute was never assigned, and
`written_file` records what (if anything) was serialized to
`locations_all.txt`. -/
structure LocationsState where
  all_locations : Option (List LocEntry)
  written_file : Option (List LocEntry)

/-- Models `Locations.__init__`: if `locations_all.txt` exists, deserialize
it into `_all_locations` (the transposed frame is kept as the entry list);
otherwise run `_download_all_locations`, which writes the artifact but never
assigns `self._all_locations`. -/
def Locations_init (file_exists : Bool) (file_content : List LocEntry)
    (fetchPoints : YM → List (String × LocMeta)) : LocationsState :=
  if file_exists then
    { all_locations := some file_content, written_file := none }
  else
    { all_locations := none, written_file := some (download_all_locations fetchPoints) }

/-- Models `Locations.get_all_locations`: returns `self._all_locations`;
reading the never-assigned attribute raises `AttributeError`. -/
def get_all_locations (s : LocationsState) : Except PyErr (List LocEntry) :=
  match s.all_locations with
  | some df => .ok df
  | none => .error .attributeError

/-! ## Station Resolver (`get_dl_months_list`) and station metadata -/

/-- Models Python `int(s)` on a string: parses an optional sign followed by
at least one decimal digit; anything else raises `ValueError`. -/
def pyInt (s : String) : Except PyErr Int :=
  let (neg, ds) := match s.data with
    | '-' :: r => (true, r)
    | r => (false, r)
  if ds ≠ [] ∧ ds.all (·.isDigit) then
    .ok (if neg then -(natOfDigits ds : Int) else (natOfDigits ds : Int))
  else
    .error (.valueError ("invalid literal for int: " ++ s))

/-- Models `get_dl_months_list` over a given directory frame (the
deserialized `Locations` universe): filter the rows whose `name` equals the
query exactly, then, record by record in frame order, extend `year_months`
with the record's sighting months and `station_ids` with
`int(id[1:])` repeated once per sighting. -/
def get_dl_months_list (directory : List LocEntry) (station_name : String) :
    Except PyErr (List Int × List YM) := do
  let df := directory.filter (fun e => e.meta.name == station_name)
  df.foldlM
    (fun acc e => do
      let n ← pyInt (e.id.drop 1)
      .ok (acc.1 ++ List.replicate e.year_months.length n, acc.2 ++ e.year_months))
    (([], []) : List Int × List YM)

/-- The `MetStation` dataclass.  The coordinate fields hold the unrounded
aggregation results; `none` models the `NaN` that pandas' `mean` yields on
an empty selection. -/
structure MetStation where
  name : String
  lon : Option Rat
  lat : Option Rat
  alt : Option Rat
deriving Repr, DecidableEq

/-- Models pandas `mean` over one column of the selected rows: `NaN`
(`none`) on an empty selection, otherwise the arithmetic mean. -/
def pyMean (vs : List Rat) : Option Rat :=
  if vs.isEmpty then none else some (vs.sum / (vs.length : Rat))

/-- Models `get_station_metadata`: select the directory rows whose `name`
equals the requested name exactly, aggregate the `lon`/`lat`/`alt` columns
with `"mean"`, and package the three means into a `MetStation`. -/
def get_station_metadata (directory : List LocEntry) (station_name : String) :
    MetStation :=
  let sel := directory.filter (fun e => e.meta.name == station_name)
  { name := station_name,
    lon := pyMean (sel.map (fun e => e.meta.lon)),
    lat := pyMean (sel.map (fun e => e.meta.lat)),
    alt := pyMean (sel.map (fun e => e.meta.alt)) }

/-! ## Table Builder / Aggregator (`clean_station_data`, `aggregate_station_data`) -/

/-- One cell of a pandas frame: missing (`NaN`/absent key), a number, or a
raw string as fetched. -/
inductive Cell where
  | na
  | num (q : Rat)
  | str (s : String)
deriving Repr, DecidableEq

/-- An ordered pandas-style frame: ordered column labels and ordered rows,
each row holding its index key and its cells aligned with `columns`. -/
structure Frame (κ γ : Type) where
  columns : List γ
  rows : List (κ × List Cell)
deriving Repr, DecidableEq

/-- The orchestrator's output (`download_data_for_station`): a dict keyed by
`(year, month)`, each value the per-parameter raw mapping of that month. -/
abbrev RawData := List (YM × List (String × Cell))

/-- Look a parameter up in one month's raw mapping; an absent key becomes a
missing cell, as in the pandas constructor's index alignment. -/
def rawCell (d : List (String × Cell)) (c : String) : Cell :=
  (d.lookup c).getD .na

/-- The column labels `pd.DataFrame(station_data).transpose()` produces:
pandas (`_extract_index`/`union_indexes`) keeps the common key list when
every month has the same keys in the same order, and otherwise takes the
first-seen-deduplicated union sorted ascending. -/
def rawColumns (raw : RawData) : List String :=
  match raw.map (fun r => r.2.map Prod.fst) with
  | [] => []
  | ks :: rest =>
    if rest.all (fun l => l == ks) then ks
    else ((ks :: rest).flatten.dedup).mergeSort (fun a b => a ≤ b)

/-- Models `pd.DataFrame(station_data).transpose()`: one row per dict key in
insertion order, cells aligned with the computed columns. -/
def frameOfRaw (raw : RawData) : Frame YM String :=
  { columns := rawColumns raw,
    rows := raw.map (fun r => (r.1, (rawColumns raw).map (rawCell r.2))) }

/-- The `(year, month)` index order used by `sort_index`: lexicographic. -/
def ymLe (a b : YM) : Bool :=
  a.1 < b.1 || (a.1 == b.1 && a.2 ≤ b.2)

/-- Models `df.sort_index(inplace=True)`: sort the rows by index key. -/
def sortIndex (df : Frame YM String) : Frame YM String :=
  { df with rows := df.rows.mergeSort (fun a b => ymLe a.1 b.1) }

/-- Models `df.dropna(axis=1, how="all")`: keep the columns (and the
corresponding cell of every row) that hold at least one non-missing value. -/
def dropNaColumns {κ γ : Type} (df : Frame κ γ) : Frame κ γ :=
  let keep : List Bool :=
    (List.range df.columns.length).map
      (fun j => df.rows.any (fun r => !(r.2.getD j .na == .na)))
  { columns := ((keep.zip df.columns).filter Prod.fst).map Prod.snd,
    rows := df.rows.map (fun r => (r.1, ((keep.zip r.2).filter Prod.fst).map Prod.snd)) }

/-- Models `df.dropna(axis=0, how="all")`: keep the rows holding at least
one non-missing value. -/
def dropNaRows {κ γ : Type} (df : Frame κ γ) : Frame κ γ :=
  { df with rows := df.rows.filter (fun r => r.2.any (fun c => !(c == .na))) }

/-- Models `pd.to_numeric(errors="coerce")` on one cell, restricted to the
decimal literals this source's data uses: numbers pass through, strings are
parsed as decimal literals and become missing when they are not numeric,
missing stays missing.  Never raises. -/
def to_numeric_coerce : Cell → Cell
  | .na => .na
  | .num q => .num q
  | .str s =>
    match parseNumber s.data with
    | some (.num q, []) => .num q
    | _ => .na

/-- Models `clean_station_data`: frame the raw dict, sort by the
`(year, month)` key, split the key into the two-level index (the key pairs
already carry both levels; `zip(*df.index)` raises `ValueError` on an empty
frame), drop all-missing columns then all-missing rows, and coerce every
remaining cell to numeric. -/
def clean_station_data (station_data : RawData) : Except PyErr (Frame YM String) :=
  let df := sortIndex (frameOfRaw station_data)
  if df.rows.isEmpty then
    .error (.valueError "not enough values to unpack (expected 2, got 0)")
  else
    let df := dropNaRows (dropNaColumns df)
    .ok { df with rows := df.rows.map (fun r => (r.1, r.2.map to_numeric_coerce)) }

/-- Modelled from the spec: the aggregation-function names carried by the
parameter catalog (`vars.csv`, not part of the source tree) — per-parameter
reductions applied by pandas `agg`. -/
inductive AggFn where
  | sum
  | mean
  | amin
  | amax
deriving Repr, DecidableEq

/-- The numeric values of a cell list, skipping missing ones, as pandas
aggregations do with `skipna` defaulting to true. -/
def numericValues (cs : List Cell) : List Rat :=
  cs.filterMap (fun c => match c with | .num q => some q | _ => none)

/-- Apply one aggregation function to one group's column, as pandas does:
`sum` of no values is 0, the others are `NaN` on no values. -/
def aggApply (fn : AggFn) (cs : List Cell) : Cell :=
  match fn, numericValues cs with
  | .sum, vs => .num vs.sum
  | .mean, [] => .na
  | .mean, vs => .num (vs.sum / (vs.length : Rat))
  | .amin, [] => .na
  | .amin, v :: vs => .num (vs.foldl min v)
  | .amax, [] => .na
  | .amax, v :: vs => .num (vs.foldl max v)

/-- Round half to even, as numpy/pandas `round` does on exact halves. -/
def roundHalfEven (q : Rat) : Int :=
  let f := ⌊q⌋
  let r := q - (f : Rat)
  if r < 1/2 then f
  else if 1/2 < r then f + 1
  else if f % 2 = 0 then f else f + 1

/-- Models `DataFrame.round(2)` on one cell. -/
def round2 : Cell → Cell
  | .num q => .num ((roundHalfEven (q * 100) : Rat) / 100)
  | c => c

/-- Models `fillna(0)` on one cell. -/
def fillZero : Cell → Cell
  | .na => .num 0
  | c => c

/-- The distinct months of the frame, ascending — the group keys of
`groupby(["month"])`, which sorts them. -/
def groupMonths (df : Frame YM String) : List Nat :=
  ((df.rows.map (fun r => r.1.2)).dedup).mergeSort (fun a b => a ≤ b)

/-- The cells of column `k` over the rows of month `m`, in row order. -/
def monthColumn (df : Frame YM String) (m : Nat) (k : String) : List Cell :=
  (df.rows.filter (fun r => r.1.2 == m)).map
    (fun r => r.2.getD (df.columns.findIdx (fun c => c == k)) .na)

/-- Models `aggregate_station_data`: keep of the catalog's aggregation
mapping the parameters present as columns (`agg_func`), group the rows by
the month index level, aggregate each kept column with its function, then
`fillna(0)` and `round(2)`. -/
def aggregate_station_data (aggMapping : List (String × AggFn)) (df : Frame YM String) :
    Frame Nat (String × AggFn) :=
  let agg_func := aggMapping.filter (fun p => df.columns.contains p.1)
  { columns := agg_func,
    rows := (groupMonths df).map
      (fun m => (m, agg_func.map
        (fun p => round2 (fillZero (aggApply p.2 (monthColumn df m p.1)))))) }

/-! ## Helper lemmas -/

theorem isleap_iff (y : Nat) :
    isleap y = true ↔ (y % 4 = 0 ∧ (y % 100 ≠ 0 ∨ y % 400 = 0)) := by
  simp [isleap]

theorem get_dates_for_month_ok (year month : Nat)
    (hy1 : 1 ≤ year) (hy2 : year ≤ 9999) (hm1 : 1 ≤ month) (hm2 : month ≤ 12) :
    ∃ last_day,
      get_dates_for_month year month = .ok (iso_date year month 1, iso_date year month last_day) ∧
      (month = 2 → last_day = if year % 4 = 0 ∧ (year % 100 ≠ 0 ∨ year % 400 = 0) then 29 else 28) ∧
      (month ∈ ([1, 3, 5, 7, 8, 10, 12] : List Nat) → last_day = 31) ∧
      (month ∈ ([4, 6, 9, 11] : List Nat) → last_day = 30) ∧
      (last_day = 28 ∨ last_day = 29 ∨ last_day = 30 ∨ last_day = 31) := by
  refine ⟨mdays.getD month 0 + if month = 2 ∧ isleap year then 1 else 0, ?_, ?_, ?_, ?_, ?_⟩
  · simp only [get_dates_for_month, monthrange_days, if_pos (And.intro hm1 hm2)]
    simp only [hy1, hy2, and_self, if_true, Except.bind]
    rfl
  · intro h2
    subst h2
    by_cases hl : isleap year
    · rw [if_pos ((isleap_iff year).mp hl)]
      simp [mdays, hl]
    · rw [if_neg (fun hc => hl ((isleap_iff year).mpr hc))]
      simp [mdays, hl]
  · intro hmem
    interval_cases month <;> simp_all [mdays]
  · intro hmem
    interval_cases month <;> simp_all [mdays]
  · interval_cases month <;> by_cases hl : isleap year <;> simp [mdays, hl]

/-! ## Claim theorems -/

/-- Claim C5 (corrected): for a year in `datetime`'s supported range 1..9999
and a month in 1..12, `get_dates_for_month` returns the ISO date of day 1
and the ISO date of the true last day (28/29/30/31), with February following
the Gregorian leap rule; outside that year range `datetime` raises. -/
theorem get_dates_for_month_correct (year month : Nat)
    (hy1 : 1 ≤ year) (hy2 : year ≤ 9999) (hm1 : 1 ≤ month) (hm2 : month ≤ 12) :
    ∃ last_day,
      get_dates_for_month year month = .ok (iso_date year month 1, iso_date year month last_day) ∧
      (month = 2 → last_day = if year % 4 = 0 ∧ (year % 100 ≠ 0 ∨ year % 400 = 0) then 29 else 28) ∧
      (month ∈ ([1, 3, 5, 7, 8, 10, 12] : List Nat) → last_day = 31) ∧
      (month ∈ ([4, 6, 9, 11] : List Nat) → last_day = 30) ∧
      (last_day = 28 ∨ last_day = 29 ∨ last_day = 30 ∨ last_day = 31) :=
  get_dates_for_month_ok year month hy1 hy2 hm1 hm2

/-- Claim C5 witness: the spec's own leap-year instances, 2000→29 and
1900→28, via the claim theorem. -/
theorem get_dates_for_month_correct_witness :
    get_dates_for_month 2000 2 = .ok ("2000-02-01", "2000-02-29") ∧
    get_dates_for_month 1900 2 = .ok ("1900-02-01", "1900-02-28") := by
  constructor
  · obtain ⟨d, h1, h2, -, -, -⟩ :=
      get_dates_for_month_correct 2000 2 (by decide) (by decide) (by decide) (by decide)
    have hd : d = 29 := by simpa using h2 rfl
    subst hd
    exact h1
  · obtain ⟨d, h1, h2, -, -, -⟩ :=
      get_dates_for_month_correct 1900 2 (by decide) (by decide) (by decide) (by decide)
    have hd : d = 28 := by simpa using h2 rfl
    subst hd
    exact h1

/-- Claim C5 counterexample: the claim quantifies over every year, but
`datetime` only supports years 1..9999 — at year 0 the helper raises
`ValueError` instead of returning the dates. -/
theorem get_dates_for_month_year_zero_raises :
    get_dates_for_month 0 1 = .error (.valueError "year is out of range") := by rfl

/-- Claim C1 (code bug): when the HTTP layer reports a non-success status
for the data request, `fetch_data_for_month` does not return an absence
value — `_fetch` returns `None`, which the key-remapping comprehension then
subscripts, raising `TypeError`. -/
theorem fetch_data_for_month_typeerror_on_http_failure
    (http : List (String × String) → HttpResponse) (station_id : Int)
    (ym : YM) (vars : List Int)
    (hok : ∀ ps, (http ps).ok = false)
    (hy1 : 1 ≤ ym.1) (hy2 : ym.1 ≤ 9999) (hm1 : 1 ≤ ym.2) (hm2 : ym.2 ≤ 12) :
    fetch_data_for_month http station_id ym vars = .error .typeError := by
  obtain ⟨year, month⟩ := ym
  obtain ⟨d, hdates, -⟩ := get_dates_for_month_ok year month hy1 hy2 hm1 hm2
  simp only [fetch_data_for_month, WebMetData_fetch, hok, hdates, Except.bind]
  rfl

/-- Claim C1 witness: a concrete failed request (every response has
`ok = False`) for station 1639, January 2001. -/
theorem fetch_data_for_month_typeerror_on_http_failure_witness :
    fetch_data_for_month (fun _ => { ok := false, text := "" }) 1639 (2001, 1) [136] =
      .error .typeError :=
  fetch_data_for_month_typeerror_on_http_failure (fun _ => { ok := false, text := "" })
    1639 (2001, 1) [136] (fun _ => rfl) (by decide) (by decide) (by decide) (by decide)

set_option maxRecDepth 4096 in
/-- Claim C2 (code bug): with no artifact file, `__init__` runs the full
sweep — which builds the station dict over the hardcoded years 1948–2022
and writes it to the artifact — but never assigns `_all_locations`, so
`get_all_locations` then raises `AttributeError` instead of returning the
station universe; with the artifact present, it is deserialized and
returned directly. -/
theorem locations_fresh_sweep_never_assigns
    (fetchPoints : YM → List (String × LocMeta)) (content : List LocEntry) :
    get_all_locations (Locations_init false content fetchPoints) = .error .attributeError ∧
    (Locations_init false content fetchPoints).written_file =
      some (download_all_locations fetchPoints) ∧
    get_all_locations (Locations_init true content fetchPoints) = .ok content ∧
    (1948, 1) ∈ sweep_year_months ∧ (2022, 12) ∈ sweep_year_months ∧
    (2023, 1) ∉ sweep_year_months ∧ (1947, 12) ∉ sweep_year_months := by
  refine ⟨rfl, rfl, rfl, by decide, by decide, by decide, by decide⟩

theorem except_bind_ok {α β : Type} (a : α) (f : α → Except PyErr β) :
    (Except.ok a >>= f) = f a := rfl

theorem except_bind_error {α β : Type} (e : PyErr) (f : α → Except PyErr β) :
    ((Except.error e : Except PyErr α) >>= f) = .error e := rfl

/-- Claim C3 (corrected): `pujs_to_json` never returns successfully on a
payload whose parsing fails, and when the failure is the object-literal
parse of the reconstructed (stripped and repaired) inner text, the raised
error is `ValueError` carrying exactly that text; but a payload whose
failure is in envelope extraction itself — not well-formed XML, or a
well-formed element with no text — raises `ParseError`/`TypeError`, which
carries no reconstructed text. -/
theorem pujs_to_json_error_propagation :
    (∀ s t, ET_fromstring s = .ok (some t) →
      json5_loads (repairEmptyValues ((t.data.drop 16).dropLast)) = none →
      pujs_to_json s =
        .error (.valueError (String.mk (repairEmptyValues ((t.data.drop 16).dropLast))))) ∧
    (∀ s, ET_fromstring s = .ok none → pujs_to_json s = .error .typeError) ∧
    (∀ s e, ET_fromstring s = .error e → pujs_to_json s = .error e) ∧
    (∀ s v, pujs_to_json s = .ok v → ∃ t, ET_fromstring s = .ok (some t) ∧
      json5_loads (repairEmptyValues ((t.data.drop 16).dropLast)) = some v) := by
  refine ⟨?_, ?_, ?_, ?_⟩
  · intro s t het hj
    simp [pujs_to_json, het, hj, except_bind_ok]
  · intro s het
    simp [pujs_to_json, het, except_bind_ok]
  · intro s e het
    simp [pujs_to_json, het, except_bind_error]
  · intro s v hok
    rw [pujs_to_json] at hok
    match het : ET_fromstring s with
    | .error e => rw [het, except_bind_error] at hok; exact absurd hok (by simp)
    | .ok none => rw [het, except_bind_ok] at hok; exact absurd hok (by simp)
    | .ok (some t) =>
      refine ⟨t, rfl, ?_⟩
      rw [het, except_bind_ok] at hok
      match hj : json5_loads (repairEmptyValues ((t.data.drop 16).dropLast)) with
      | some w =>
        simp only [hj] at hok
        exact congrArg some (Except.ok.inj hok)
      | none => simp only [hj] at hok; exact absurd hok (by simp)

/-- Claim C3 witness: a wrapped payload whose inner text strips to `???`,
which the lenient parser rejects; the raised error carries the
reconstructed text. -/
theorem pujs_to_json_error_propagation_witness :
    pujs_to_json "<data>AcademaPUJS.set(???)</data>" = .error (.valueError "???") := by
  have h := pujs_to_json_error_propagation.1 "<data>AcademaPUJS.set(???)</data>"
    "AcademaPUJS.set(???)" (by rfl) (by rfl)
  exact h

/-- Claim C3 counterexample: `<data></data>` is a payload missing the
required envelope markers whose parsing fails, yet the raised error is
`TypeError` (from slicing `root.text = None`), not a decode error carrying
reconstructed inner text. -/
theorem pujs_to_json_empty_element_typeerror :
    pujs_to_json "<data></data>" = .error .typeError := by rfl

theorem replicate_length_zip {α β : Type} (i : α) (l : List β) :
    (List.replicate l.length i).zip l = l.map (fun x => (i, x)) := by
  induction l with
  | nil => rfl
  | cons x xs ih => simp [List.replicate_succ, ih]

theorem get_dl_months_list_aux (sel : List LocEntry) (idOf : LocEntry → Int)
    (h : ∀ e ∈ sel, pyInt (e.id.drop 1) = .ok (idOf e)) (acc : List Int × List YM) :
    sel.foldlM
      (fun acc e => do
        let n ← pyInt (e.id.drop 1)
        .ok (acc.1 ++ List.replicate e.year_months.length n, acc.2 ++ e.year_months))
      acc =
    .ok (acc.1 ++ sel.flatMap (fun e => List.replicate e.year_months.length (idOf e)),
         acc.2 ++ sel.flatMap (fun e => e.year_months)) := by
  induction sel generalizing acc with
  | nil => simp; rfl
  | cons e es ih =>
    have he := h e (by simp)
    have hes : ∀ x ∈ es, pyInt (x.id.drop 1) = .ok (idOf x) :=
      fun x hx => h x (by simp [hx])
    simp only [List.foldlM, he, except_bind_ok]
    rw [ih hes]
    simp [List.append_assoc]

/-- Claim C6 (confirmed): `get_dl_months_list` returns two parallel
sequences of equal length, whose paired entries are exactly, in directory
order, one `(id, (year, month))` pair per sighting month of every record
whose name equals the query string exactly — the id at each position being
the (parsed) id of the record whose sighting that month is; records whose
name differs contribute nothing. -/
theorem get_dl_months_list_pairs (directory : List LocEntry) (station_name : String)
    (idOf : LocEntry → Int)
    (h : ∀ e ∈ directory.filter (fun e => e.meta.name == station_name),
      pyInt (e.id.drop 1) = .ok (idOf e)) :
    get_dl_months_list directory station_name = .ok
      ((directory.filter (fun e => e.meta.name == station_name)).flatMap
         (fun e => List.replicate e.year_months.length (idOf e)),
       (directory.filter (fun e => e.meta.name == station_name)).flatMap
         (fun e => e.year_months)) ∧
    ((directory.filter (fun e => e.meta.name == station_name)).flatMap
       (fun e => List.replicate e.year_months.length (idOf e))).length =
      ((directory.filter (fun e => e.meta.name == station_name)).flatMap
         (fun e => e.year_months)).length ∧
    ((directory.filter (fun e => e.meta.name == station_name)).flatMap
       (fun e => List.replicate e.year_months.length (idOf e))).zip
      ((directory.filter (fun e => e.meta.name == station_name)).flatMap
         (fun e => e.year_months)) =
      (directory.filter (fun e => e.meta.name == station_name)).flatMap
        (fun e => e.year_months.map (fun ym => (idOf e, ym))) := by
  have key := get_dl_months_list_aux
    (directory.filter (fun e => e.meta.name == station_name)) idOf h ([], [])
  simp only [List.nil_append] at key
  refine ⟨key, ?_, ?_⟩
  · simp [List.length_flatMap, Function.comp_def]
  · generalize directory.filter (fun e => e.meta.name == station_name) = sel
    induction sel with
    | nil => rfl
    | cons e es ih =>
      simp only [List.flatMap_cons]
      rw [List.zip_append (by simp), ih, replicate_length_zip]

/-- Claim C6 witness: a directory in which the name `"X"` was active under
two ids (`_101` over two months, `_202` over one) and one unrelated record;
the resolver returns the three parallel entries and nothing for `"Y"`. -/
theorem get_dl_months_list_pairs_witness :
    get_dl_months_list
      [⟨"_101", ⟨"X", 10, 0, 100⟩, [(1948, 1), (1948, 2)]⟩,
       ⟨"_202", ⟨"X", 20, 2, 200⟩, [(1950, 3)]⟩,
       ⟨"_9", ⟨"Y", 9, 9, 9⟩, [(1950, 1)]⟩] "X" =
      .ok ([101, 101, 202], [(1948, 1), (1948, 2), (1950, 3)]) := by
  have h := (get_dl_months_list_pairs
    [⟨"_101", ⟨"X", 10, 0, 100⟩, [(1948, 1), (1948, 2)]⟩,
     ⟨"_202", ⟨"X", 20, 2, 200⟩, [(1950, 3)]⟩,
     ⟨"_9", ⟨"Y", 9, 9, 9⟩, [(1950, 1)]⟩] "X"
    (fun e => if e.id = "_101" then (101 : Int) else 202)
    (by decide)).1
  exact h.trans (by decide)

/-- Claim C10 (confirmed): the station metadata reported for a name is the
arithmetic mean of longitude, latitude and altitude over every directory
record whose name equals the requested name exactly — averaged across all
historical id reassignments, not the values of any single record. -/
theorem get_station_metadata_means (directory : List LocEntry) (station_name : String)
    (h : directory.filter (fun e => e.meta.name == station_name) ≠ []) :
    get_station_metadata directory station_name =
      { name := station_name,
        lon := some (((directory.filter (fun e => e.meta.name == station_name)).map
            (fun e => e.meta.lon)).sum /
          ((directory.filter (fun e => e.meta.name == station_name)).length : Rat)),
        lat := some (((directory.filter (fun e => e.meta.name == station_name)).map
            (fun e => e.meta.lat)).sum /
          ((directory.filter (fun e => e.meta.name == station_name)).length : Rat)),
        alt := some (((directory.filter (fun e => e.meta.name == station_name)).map
            (fun e => e.meta.alt)).sum /
          ((directory.filter (fun e => e.meta.name == station_name)).length : Rat)) } := by
  have hne : ((directory.filter (fun e => e.meta.name == station_name)).isEmpty) = false := by
    simpa [List.isEmpty_iff] using h
  simp [get_station_metadata, pyMean, hne, List.isEmpty_iff, h]

/-- Claim C10 witness: two records share the name `"X"` with longitudes 10
and 20 (latitudes 0 and 2, altitudes 100 and 200); the reported metadata is
the mean of both records — 15, 1, 150 — matching neither single record. -/
theorem get_station_metadata_means_witness :
    get_station_metadata
      [⟨"_101", ⟨"X", 10, 0, 100⟩, [(1948, 1)]⟩,
       ⟨"_202", ⟨"X", 20, 2, 200⟩, [(1950, 3)]⟩,
       ⟨"_9", ⟨"Y", 9, 9, 9⟩, [(1950, 1)]⟩] "X" =
      { name := "X", lon := some 15, lat := some 1, alt := some 150 } := by
  have h := get_station_metadata_means
    [⟨"_101", ⟨"X", 10, 0, 100⟩, [(1948, 1)]⟩,
     ⟨"_202", ⟨"X", 20, 2, 200⟩, [(1950, 3)]⟩,
     ⟨"_9", ⟨"Y", 9, 9, 9⟩, [(1950, 1)]⟩] "X" (by decide)
  rw [h]
  norm_num [List.filter, show (("Y" : String) == "X") = false from rfl,
    show (("X" : String) == "X") = true from rfl]

/-! ## Decoder round-trip lemmas -/

theorem pred_ne {p : Char → Bool} {c x : Char} (h : p c = true) (hx : p x = false) :
    c ≠ x := by
  intro he
  subst he
  rw [h] at hx
  cases hx

theorem takeWhile_append_stop {p : Char → Bool} (xs ys : List Char)
    (hxs : ∀ c ∈ xs, p c = true) (hys : ∀ y, ys.head? = some y → p y = false) :
    (xs ++ ys).takeWhile p = xs := by
  induction xs with
  | nil =>
    cases ys with
    | nil => rfl
    | cons y t => simp [List.takeWhile_cons, hys y rfl]
  | cons a t ih =>
    simp only [List.cons_append, List.takeWhile_cons, hxs a (by simp), if_true]
    rw [ih (fun c hc => hxs c (by simp [hc]))]

theorem repair_cons_of_ne_colon (a : Char) (h : a ≠ ':') (rest : List Char) :
    repairEmptyValues (a :: rest) = a :: repairEmptyValues rest := by
  cases rest with
  | nil => rfl
  | cons b t => simp [repairEmptyValues, h]

theorem repair_colon_noncomma (c : Char) (h : c ≠ ',') (rest : List Char) :
    repairEmptyValues (':' :: c :: rest) = ':' :: repairEmptyValues (c :: rest) := by
  simp [repairEmptyValues, h]

theorem repair_pattern (rest : List Char) :
    repairEmptyValues (':' :: ',' :: rest) = ':' :: '\'' :: '\'' :: ',' :: repairEmptyValues rest := by
  simp [repairEmptyValues]

theorem repair_append_no_colon (xs ys : List Char) (h : ∀ c ∈ xs, c ≠ ':') :
    repairEmptyValues (xs ++ ys) = xs ++ repairEmptyValues ys := by
  induction xs with
  | nil => rfl
  | cons a t ih =>
    rw [List.cons_append, repair_cons_of_ne_colon a (h a (by simp)),
      ih (fun c hc => h c (by simp [hc])), List.cons_append]

/-- Serialized form of one field value of a wrapped payload, as the API
emits it: a decimal digit string, or nothing at all for the known malformed
empty-value pattern. -/
def serializeVal : Option String → List Char
  | some s => s.data
  | none => []

/-- The same value after the decoder's repair: the omitted value has become
an explicit empty single-quoted string. -/
def serializeValR : Option String → List Char
  | some s => s.data
  | none => ['\'', '\'']

/-- The object-literal body (everything after the opening brace, closing
brace included) for a field list, as the API emits it. -/
def serializePairs : List (String × Option String) → List Char
  | [] => [rbrace]
  | [(k, v)] => k.data ++ ':' :: (serializeVal v ++ [rbrace])
  | (k, v) :: rest => k.data ++ ':' :: (serializeVal v ++ ',' :: serializePairs rest)

/-- The object-literal body after repair. -/
def serializePairsR : List (String × Option String) → List Char
  | [] => [rbrace]
  | [(k, v)] => k.data ++ ':' :: (serializeValR v ++ [rbrace])
  | (k, v) :: rest => k.data ++ ':' :: (serializeValR v ++ ',' :: serializePairsR rest)

/-- A well-formed wrapped payload holding the object literal made of the
given fields: the object in the `AcademaPUJS.set(...)` envelope inside the
XML element. -/
def pujsWrap (fields : List (String × Option String)) : String :=
  String.mk ("<data>".data ++
    ("AcademaPUJS.set(".data ++ (lbrace :: serializePairs fields) ++ [')']) ++
    "</data>".data)

/-- An unquoted identifier key as the API emits them. -/
def goodKey (k : String) : Prop :=
  k.data ≠ [] ∧ ∀ c ∈ k.data, isIdentChar c = true

/-- A present value is a nonempty digit string. -/
def goodVal : Option String → Prop
  | some s => s.data ≠ [] ∧ ∀ c ∈ s.data, c.isDigit = true
  | none => True

/-- What one serialized field decodes to: the omitted value surfaces as the
explicit empty string inserted by the repair. -/
def decodeField (p : String × Option String) : String × JValue :=
  (p.1, match p.2 with
    | some s => .num (natOfDigits s.data)
    | none => .str "")

theorem repair_serializePairs (fields : List (String × Option String))
    (hk : ∀ p ∈ fields, goodKey p.1 ∧ goodVal p.2)
    (hlast : ∀ p, fields.getLast? = some p → p.2.isSome) :
    repairEmptyValues (serializePairs fields) = serializePairsR fields := by
  induction fields with
  | nil =>
    show repairEmptyValues [rbrace] = [rbrace]
    rfl
  | cons p rest ih =>
    obtain ⟨k, v⟩ := p
    have hkk := (hk (k, v) (by simp)).1
    have hnc : ∀ c ∈ k.data, c ≠ ':' :=
      fun c hc => pred_ne (hkk.2 c hc) (by decide)
    cases rest with
    | nil =>
      have hv : v.isSome := hlast (k, v) (by simp)
      match v, hv with
      | some s, _ =>
        have hs := (hk (k, some s) (by simp)).2
        show repairEmptyValues (k.data ++ ':' :: (s.data ++ [rbrace])) = _
        rw [repair_append_no_colon _ _ hnc]
        cases hsd : s.data with
        | nil => exact absurd hsd hs.1
        | cons d ds =>
          have hd : d.isDigit = true := hs.2 d (by rw [hsd]; simp)
          rw [List.cons_append, repair_colon_noncomma d (pred_ne hd (by decide)) _]
          have hnd : ∀ c ∈ d :: ds, c ≠ ':' := by
            intro c hc
            exact pred_ne (hs.2 c (by rw [hsd]; exact hc)) (by decide)
          have h2 : repairEmptyValues (d :: (ds ++ [rbrace])) = (d :: ds) ++ [rbrace] := by
            have h3 := repair_append_no_colon (d :: ds) [rbrace] hnd
            simpa using h3
          rw [h2]
          show _ = k.data ++ ':' :: (s.data ++ [rbrace])
          rw [hsd]
    | cons q rest2 =>
      have hrest : ∀ p ∈ q :: rest2, goodKey p.1 ∧ goodVal p.2 :=
        fun p hp => hk p (by simp [hp])
      have hlast2 : ∀ p, (q :: rest2).getLast? = some p → p.2.isSome := by
        intro p hp
        exact hlast p (by rwa [List.getLast?_cons_cons])
      have ihr := ih hrest hlast2
      show repairEmptyValues (k.data ++ ':' :: (serializeVal v ++ ',' :: serializePairs (q :: rest2))) = _
      rw [repair_append_no_colon _ _ hnc]
      cases v with
      | none =>
        show k.data ++ repairEmptyValues (':' :: ',' :: serializePairs (q :: rest2)) = _
        rw [repair_pattern, ihr]
        rfl
      | some s =>
        have hs := (hk (k, some s) (by simp)).2
        cases hsd : s.data with
        | nil => exact absurd hsd hs.1
        | cons d ds =>
          show k.data ++ repairEmptyValues (':' :: (s.data ++ ',' :: serializePairs (q :: rest2))) = _
          have hnd : ∀ c ∈ d :: ds, c ≠ ':' := by
            intro c hc
            exact pred_ne (hs.2 c (by rw [hsd]; exact hc)) (by decide)
          rw [hsd, List.cons_append,
            repair_colon_noncomma d (pred_ne (hs.2 d (by rw [hsd]; simp)) (by decide)) _]
          have h2 : repairEmptyValues (d :: (ds ++ ',' :: serializePairs (q :: rest2))) =
              (d :: ds) ++ (',' :: repairEmptyValues (serializePairs (q :: rest2))) := by
            have h3 := repair_append_no_colon (d :: ds) (',' :: serializePairs (q :: rest2)) hnd
            rw [repair_cons_of_ne_colon ',' (by decide) _] at h3
            simpa using h3
          rw [h2, ihr]
          show _ = k.data ++ ':' :: (s.data ++ ',' :: serializePairsR (q :: rest2))
          rw [hsd]

theorem ratOfParts_nil (ip : List Char) :
    ratOfParts false ip [] = (natOfDigits ip : Rat) := by
  simp [ratOfParts]

theorem parseNumber_digits (d : Char) (ds sep : List Char)
    (hds : ∀ c ∈ d :: ds, c.isDigit = true)
    (hsep : ∀ y, sep.head? = some y → (y.isDigit = false ∧ y ≠ '.')) :
    parseNumber ((d :: ds) ++ sep) = some (.num (natOfDigits (d :: ds)), sep) := by
  have hdm : d ≠ '-' := pred_ne (hds d (by simp)) (by decide)
  have hneg : ¬(((d :: ds) ++ sep).head? = some '-') := by
    rw [show ((d :: ds) ++ sep).head? = some d from rfl]
    simp [hdm]
  have htw : ((d :: ds) ++ sep).takeWhile (·.isDigit) = d :: ds :=
    takeWhile_append_stop _ _ hds (fun y hy => (hsep y hy).1)
  have hdrop : ((d :: ds) ++ sep).drop (d :: ds).length = sep := List.drop_left _ _
  have hdot : ¬(sep.head? = some '.') := by
    intro hsp
    cases hy : sep.head? with
    | none => rw [hy] at hsp; cases hsp
    | some y =>
      rw [hy] at hsp
      exact (hsep y hy).2 (Option.some.inj hsp)
  simp only [parseNumber, if_neg hneg, decide_eq_false hneg, Bool.false_eq_true, if_false, htw]
  rw [if_neg (List.cons_ne_nil d ds)]
  simp only [hdrop, if_neg hdot, ratOfParts_nil]

theorem parseJValue_digits (fuel : Nat) (d : Char) (ds sep : List Char)
    (hds : ∀ c ∈ d :: ds, c.isDigit = true)
    (hsep : ∀ y, sep.head? = some y → (y.isDigit = false ∧ y ≠ '.')) :
    parseJValue (fuel + 1) ((d :: ds) ++ sep) = some (.num (natOfDigits (d :: ds)), sep) := by
  have hd := hds d (by simp)
  have h1 : d ≠ '\'' := pred_ne hd (by decide)
  have h2 : d ≠ lbrace := pred_ne hd (by decide)
  rw [List.cons_append, parseJValue]
  rw [if_neg h1, if_neg h2, if_pos (Or.inl hd), ← List.cons_append]
  exact parseNumber_digits d ds sep hds hsep

theorem parseJValue_empty_str (fuel : Nat) (rest : List Char) :
    parseJValue (fuel + 1) ('\'' :: '\'' :: rest) = some (.str "", rest) := by
  rw [parseJValue, if_pos rfl]
  simp [List.takeWhile_cons]

theorem parseJPairs_key_step (f : Nat) (k : String) (hkk : goodKey k) (z : List Char) :
    parseJPairs (f + 1) (k.data ++ ':' :: z) =
      (match parseJValue f z with
       | some (v, restV) =>
         if restV.head? = some ',' then
           match parseJPairs f restV.tail with
           | some (ps, r) => some ((k, v) :: ps, r)
           | none => none
         else if restV.head? = some rbrace then some ([(k, v)], restV.tail)
         else none
       | none => none) := by
  cases hd : k.data with
  | nil => exact absurd hd hkk.1
  | cons kc kt =>
    have hident : ∀ c ∈ kc :: kt, isIdentChar c = true := by
      intro c hc
      exact hkk.2 c (by rw [hd]; exact hc)
    have h1 : kc ≠ rbrace := pred_ne (hident kc (by simp)) (by decide)
    have htw : ((kc :: kt) ++ ':' :: z).takeWhile isIdentChar = kc :: kt :=
      takeWhile_append_stop _ _ hident (by intro y hy; cases hy; decide)
    have hdrop : ((kc :: kt) ++ ':' :: z).drop (kc :: kt).length = ':' :: z :=
      List.drop_left _ _
    rw [List.cons_append]
    rw [parseJPairs]
    rw [if_neg h1]
    rw [← List.cons_append, htw]
    rw [if_neg (List.cons_ne_nil kc kt), hdrop]
    have hmk : String.mk (kc :: kt) = k := by rw [← hd]
    simp only [List.head?_cons, List.tail_cons, if_true, hmk]

theorem parseJPairs_serializeR (fields : List (String × Option String)) :
    ∀ (fuel : Nat) (rest : List Char),
    (∀ p ∈ fields, goodKey p.1 ∧ goodVal p.2) → fields.length + 2 ≤ fuel →
    parseJPairs fuel (serializePairsR fields ++ rest) = some (fields.map decodeField, rest) := by
  induction fields with
  | nil =>
    intro fuel rest _ hfuel
    obtain ⟨f, rfl⟩ : ∃ f, fuel = f + 1 := ⟨fuel - 1, by omega⟩
    show parseJPairs (f + 1) (rbrace :: rest) = some ([], rest)
    rw [parseJPairs, if_pos rfl]
  | cons p rest2 ih =>
    obtain ⟨k, v⟩ := p
    intro fuel rest hk hfuel
    obtain ⟨f, rfl⟩ : ∃ f, fuel = f + 1 := ⟨fuel - 1, by omega⟩
    obtain ⟨f2, rfl⟩ : ∃ f2, f = f2 + 1 := ⟨f - 1, by omega⟩
    have hkk := (hk (k, v) (by simp)).1
    have hgv := (hk (k, v) (by simp)).2
    cases rest2 with
    | nil =>
      have hshape : serializePairsR [(k, v)] ++ rest =
          k.data ++ ':' :: (serializeValR v ++ (rbrace :: rest)) := by
        show (k.data ++ ':' :: (serializeValR v ++ [rbrace])) ++ rest = _
        rw [List.append_assoc, List.cons_append, List.append_assoc]
        rfl
      rw [hshape, parseJPairs_key_step (f2 + 1) k hkk]
      cases v with
      | none =>
        rw [show serializeValR none ++ (rbrace :: rest) = '\'' :: '\'' :: (rbrace :: rest) from rfl]
        rw [parseJValue_empty_str f2]
        simp [decodeField]
        exact fun h => absurd h (by decide)
      | some s =>
        cases hsd : s.data with
        | nil => exact absurd hsd hgv.1
        | cons d ds =>
          have hds : ∀ c ∈ d :: ds, c.isDigit = true := by
            intro c hc
            exact hgv.2 c (by rw [hsd]; exact hc)
          rw [show serializeValR (some s) ++ (rbrace :: rest) = s.data ++ (rbrace :: rest) from rfl,
            hsd, parseJValue_digits f2 d ds (rbrace :: rest) hds
              (by intro y hy; cases hy; exact ⟨by decide, by decide⟩)]
          simp [decodeField, ← hsd]
          exact fun h => absurd h (by decide)
    | cons q t =>
      have hrest : ∀ p ∈ q :: t, goodKey p.1 ∧ goodVal p.2 :=
        fun p hp => hk p (by simp [hp])
      have hfuel2 : (q :: t).length + 2 ≤ f2 + 1 := by
        simp only [List.length_cons] at hfuel ⊢
        omega
      have hshape : serializePairsR ((k, v) :: q :: t) ++ rest =
          k.data ++ ':' :: (serializeValR v ++ (',' :: (serializePairsR (q :: t) ++ rest))) := by
        show (k.data ++ ':' :: (serializeValR v ++ ',' :: serializePairsR (q :: t))) ++ rest = _
        rw [List.append_assoc, List.cons_append, List.append_assoc, List.cons_append]
      rw [hshape, parseJPairs_key_step (f2 + 1) k hkk]
      cases v with
      | none =>
        rw [show serializeValR none ++ (',' :: (serializePairsR (q :: t) ++ rest)) =
          '\'' :: '\'' :: (',' :: (serializePairsR (q :: t) ++ rest)) from rfl]
        rw [parseJValue_empty_str f2]
        simp [ih (f2 + 1) rest hrest hfuel2, decodeField]
      | some s =>
        cases hsd : s.data with
        | nil => exact absurd hsd hgv.1
        | cons d ds =>
          have hds : ∀ c ∈ d :: ds, c.isDigit = true := by
            intro c hc
            exact hgv.2 c (by rw [hsd]; exact hc)
          rw [show serializeValR (some s) ++ (',' :: (serializePairsR (q :: t) ++ rest)) =
            s.data ++ (',' :: (serializePairsR (q :: t) ++ rest)) from rfl,
            hsd, parseJValue_digits f2 d ds _ hds
              (by intro y hy; cases hy; exact ⟨by decide, by decide⟩)]
          simp [ih (f2 + 1) rest hrest hfuel2, decodeField, ← hsd]

theorem serializePairsR_length (fields : List (String × Option String)) :
    fields.length + 1 ≤ (serializePairsR fields).length := by
  induction fields with
  | nil => simp [serializePairsR]
  | cons p rest ih =>
    obtain ⟨k, v⟩ := p
    cases rest with
    | nil =>
      show [(k, v)].length + 1 ≤ (k.data ++ ':' :: (serializeValR v ++ [rbrace])).length
      simp only [List.length_append, List.length_cons, List.length_nil, List.length_singleton]
      omega
    | cons q t =>
      show ((k, v) :: q :: t).length + 1 ≤
        (k.data ++ ':' :: (serializeValR v ++ ',' :: serializePairsR (q :: t))).length
      simp only [List.length_append, List.length_cons, List.length_nil] at ih ⊢
      omega

theorem json5_loads_serializeR (fields : List (String × Option String))
    (hk : ∀ p ∈ fields, goodKey p.1 ∧ goodVal p.2) :
    json5_loads (lbrace :: serializePairsR fields) = some (.obj (fields.map decodeField)) := by
  have hlen := serializePairsR_length fields
  rw [json5_loads]
  rw [show (lbrace :: serializePairsR fields).length + 1 =
    ((serializePairsR fields).length + 1) + 1 from by simp]
  rw [parseJValue]
  rw [if_neg (by decide), if_pos rfl]
  have hp := parseJPairs_serializeR fields ((serializePairsR fields).length + 1) [] hk (by omega)
  rw [List.append_nil] at hp
  rw [hp]

theorem ET_fromstring_wrap (body : List Char) (hne : body ≠ [])
    (hlt : ∀ c ∈ body, c ≠ '<') :
    ET_fromstring (String.mk ("<data>".data ++ body ++ "</data>".data)) =
      .ok (some (String.mk body)) := by
  show ET_fromstring (String.mk (('<' :: 'd' :: 'a' :: 't' :: 'a' :: '>' :: []) ++ body ++
    ('<' :: '/' :: 'd' :: 'a' :: 't' :: 'a' :: '>' :: []))) = _
  rw [ET_fromstring]
  simp only [String.mk, List.cons_append, List.nil_append]
  rw [show List.takeWhile (· ≠ '>')
      ('d' :: 'a' :: 't' :: 'a' :: '>' :: (body ++ '<' :: '/' :: 'd' :: 'a' :: 't' :: 'a' :: '>' :: []))
      = 'd' :: 'a' :: 't' :: 'a' :: [] from by
    simp [List.takeWhile_cons]]
  rw [if_neg (by decide)]
  simp only [List.length_cons, List.length_nil, List.drop_succ_cons, List.drop_zero]
  have htw : List.takeWhile (fun c => decide (c ≠ '<'))
      (body ++ '<' :: '/' :: 'd' :: 'a' :: 't' :: 'a' :: '>' :: []) = body := by
    apply takeWhile_append_stop
    · intro c hc
      simp [hlt c hc]
    · intro y hy
      cases hy
      simp
  rw [htw]
  rw [List.drop_left]
  rw [if_pos (by decide)]
  rw [if_neg hne]

theorem serializePairs_chars (fields : List (String × Option String))
    (hk : ∀ p ∈ fields, goodKey p.1 ∧ goodVal p.2) :
    ∀ c ∈ serializePairs fields, c ≠ '<' := by
  induction fields with
  | nil =>
    intro c hc
    show c ≠ '<'
    cases hc with
    | head => decide
    | tail _ h => cases h
  | cons p rest ih =>
    obtain ⟨k, v⟩ := p
    have hkk := (hk (k, v) (by simp)).1
    have hgv := (hk (k, v) (by simp)).2
    have hkc : ∀ c ∈ k.data, c ≠ '<' :=
      fun c hc => pred_ne (hkk.2 c hc) (by decide)
    have hvc : ∀ c ∈ serializeVal v, c ≠ '<' := by
      intro c hc
      cases v with
      | none => cases hc
      | some s => exact pred_ne (hgv.2 c hc) (by decide)
    intro c hc
    cases rest with
    | nil =>
      have hc2 : c ∈ k.data ++ ':' :: (serializeVal v ++ [rbrace]) := hc
      rcases List.mem_append.mp hc2 with h | h
      · exact hkc c h
      · rcases h with _ | ⟨_, h⟩
        · decide
        · rcases List.mem_append.mp h with h2 | h2
          · exact hvc c h2
          · rcases h2 with _ | ⟨_, h3⟩
            · decide
            · cases h3
    | cons q t =>
      have hc2 : c ∈ k.data ++ ':' :: (serializeVal v ++ ',' :: serializePairs (q :: t)) := hc
      rcases List.mem_append.mp hc2 with h | h
      · exact hkc c h
      · rcases h with _ | ⟨_, h⟩
        · decide
        · rcases List.mem_append.mp h with h2 | h2
          · exact hvc c h2
          · rcases h2 with _ | ⟨_, h3⟩
            · decide
            · exact ih (fun p hp => hk p (by simp [hp])) c h3

/-- Claim C4 (corrected): a well-formed wrapped payload whose fields have
identifier keys and decimal values, with any subset of values omitted
entirely, decodes without error to a mapping giving every omitted field the
explicit empty string — provided each omitted value is followed by another
field (the repair replaces exactly the `:,` pattern); an omitted value in
final position is not repaired (see the counterexample). -/
theorem pujs_to_json_repairs_omitted_values (fields : List (String × Option String))
    (hk : ∀ p ∈ fields, goodKey p.1 ∧ goodVal p.2)
    (hlast : ∀ p, fields.getLast? = some p → p.2.isSome) :
    pujs_to_json (pujsWrap fields) = .ok (.obj (fields.map decodeField)) := by
  have hbody_lt : ∀ c ∈ "AcademaPUJS.set(".data ++
      (lbrace :: serializePairs fields) ++ [')'], c ≠ '<' := by
    intro c hc
    rcases List.mem_append.mp hc with h | h
    · rcases List.mem_append.mp h with h2 | h2
      · fin_cases h2 <;> decide
      · rcases h2 with _ | ⟨_, h3⟩
        · decide
        · exact serializePairs_chars fields hk c h3
    · rcases h with _ | ⟨_, h2⟩
      · decide
      · cases h2
  have hbody_ne : "AcademaPUJS.set(".data ++
      (lbrace :: serializePairs fields) ++ [')'] ≠ [] := by simp
  have het := ET_fromstring_wrap _ hbody_ne hbody_lt
  have hwrap : pujsWrap fields = String.mk ("<data>".data ++
      ("AcademaPUJS.set(".data ++ (lbrace :: serializePairs fields) ++ [')']) ++
      "</data>".data) := rfl
  rw [pujs_to_json, hwrap, het, except_bind_ok]
  have hdrop : (("AcademaPUJS.set(".data ++
      (lbrace :: serializePairs fields) ++ [')']).drop 16).dropLast =
      lbrace :: serializePairs fields := by
    rw [List.append_assoc]
    rw [show (16 : Nat) = ("AcademaPUJS.set(".data).length from rfl]
    rw [List.drop_left]
    rw [List.dropLast_concat]
  have hrep : repairEmptyValues (lbrace :: serializePairs fields) =
      lbrace :: serializePairsR fields := by
    rw [repair_cons_of_ne_colon lbrace (by decide), repair_serializePairs fields hk hlast]
  show (match json5_loads (repairEmptyValues
      ((String.mk ("AcademaPUJS.set(".data ++ (lbrace :: serializePairs fields) ++ [')'])).data.drop
        16).dropLast) with
    | some v => (Except.ok v : Except PyErr JValue)
    | none => .error (.valueError _)) = _
  rw [show (String.mk ("AcademaPUJS.set(".data ++
      (lbrace :: serializePairs fields) ++ [')'])).data =
    "AcademaPUJS.set(".data ++ (lbrace :: serializePairs fields) ++ [')'] from rfl]
  rw [hdrop, hrep, json5_loads_serializeR fields hk]

/-- Claim C4 witness: the payload `{a:1,b:,c:25}` (field `b`'s value
omitted, followed by field `c`) decodes to `a ↦ 1, b ↦ "", c ↦ 25`. -/
theorem pujs_to_json_repairs_omitted_values_witness :
    pujs_to_json (pujsWrap [("a", some "1"), ("b", none), ("c", some "25")]) =
      .ok (.obj [("a", .num 1), ("b", .str ""), ("c", .num 25)]) := by
  have h := pujs_to_json_repairs_omitted_values
    [("a", some "1"), ("b", none), ("c", some "25")]
    (by
      intro p hp
      fin_cases hp <;>
        exact ⟨⟨by decide, by intro c hc; fin_cases hc <;> decide⟩, by
          first
          | exact ⟨by decide, by intro c hc; fin_cases hc <;> decide⟩
          | trivial⟩)
    (by intro p hp; cases hp; rfl)
  rw [h]
  norm_num [decodeField, natOfDigits,
    show ('1'.toNat - 48 : Nat) = 1 from by decide,
    show ('2'.toNat - 48 : Nat) = 2 from by decide,
    show ('5'.toNat - 48 : Nat) = 5 from by decide]

/-- Claim C4 counterexample: a well-formed wrapped payload whose final
field's value is omitted — the repair only rewrites `:,`, so `{a:1,b:}` is
not repaired and the decoder raises `ValueError` instead of decoding to an
empty-string field. -/
theorem pujs_to_json_omitted_final_value_raises :
    pujs_to_json "<data>AcademaPUJS.set(\x7ba:1,b:\x7d)</data>" =
      .error (.valueError "\x7ba:1,b:\x7d") := by rfl

/-! ## Table Builder lemmas -/

theorem any_perm {α : Type} {l₁ l₂ : List α} (h : l₁.Perm l₂) (p : α → Bool) :
    l₁.any p = l₂.any p := by
  rw [Bool.eq_iff_iff, List.any_eq_true, List.any_eq_true]
  constructor
  · rintro ⟨x, hx, hp⟩
    exact ⟨x, h.mem_iff.mp hx, hp⟩
  · rintro ⟨x, hx, hp⟩
    exact ⟨x, h.mem_iff.mpr hx, hp⟩

theorem any_map_general {α β : Type} (f : α → β) (l : List α) (p : β → Bool) :
    (l.map f).any p = l.any (fun x => p (f x)) := by
  induction l with
  | nil => rfl
  | cons a t ih => simp [ih]

theorem exists_perm_map {α β : Type} (f : α → β) :
    ∀ (m : List β) (l : List α), m.Perm (l.map f) →
      ∃ l' : List α, l'.Perm l ∧ l'.map f = m := by
  intro m
  induction m with
  | nil =>
    intro l h
    have hmap : l.map f = [] := h.symm.eq_nil
    have hl : l = [] := List.map_eq_nil_iff.mp hmap
    exact ⟨[], by simp [hl], rfl⟩
  | cons b m' ih =>
    intro l h
    have hb : b ∈ l.map f := h.mem_iff.mp (by simp)
    obtain ⟨a, ha, hfa⟩ := List.mem_map.mp hb
    obtain ⟨l₁, l₂, rfl⟩ := List.append_of_mem ha
    have h2 : (b :: m').Perm (b :: (l₁.map f ++ l₂.map f)) := by
      have e1 : (l₁ ++ a :: l₂).map f = l₁.map f ++ b :: l₂.map f := by simp [hfa]
      rw [e1] at h
      exact h.trans List.perm_middle
    have h3 : m'.Perm ((l₁ ++ l₂).map f) := by
      have h4 := h2.cons_inv
      simpa using h4
    obtain ⟨l'', hperm, hmap⟩ := ih (l₁ ++ l₂) h3
    refine ⟨a :: l'', ?_, by simp [hmap, hfa]⟩
    exact (hperm.cons a).trans List.perm_middle.symm

theorem keep_cols_eq {α : Type} (cols : List String) (g : α → String → Cell) (l : List α) :
    (List.range cols.length).map
      (fun j => l.any (fun e => !(((cols.map (g e)).getD j .na) == .na))) =
    cols.map (fun c => l.any (fun e => !(g e c == .na))) := by
  induction cols with
  | nil => rfl
  | cons c t ih =>
    rw [List.length_cons, List.range_succ_eq_map, List.map_cons]
    congr 1
    rw [List.map_map]
    have hcomp : ((fun j => l.any (fun e => !(((c :: t).map (g e)).getD j .na == .na))) ∘ Nat.succ)
        = (fun j => l.any (fun e => !((t.map (g e)).getD j .na == .na))) := by
      funext j
      simp [Function.comp, List.getD_cons_succ]
    rw [hcomp, ih]

theorem maskFilter_map_self {γ : Type} (cols : List γ) (p : γ → Bool) :
    (((cols.map p).zip cols).filter Prod.fst).map Prod.snd = cols.filter p := by
  induction cols with
  | nil => rfl
  | cons c t ih =>
    cases hp : p c <;> simp [List.filter_cons, hp, ih]

theorem maskFilter_map_map {γ : Type} (cols : List γ) (p : γ → Bool) (g : γ → Cell) :
    (((cols.map p).zip (cols.map g)).filter Prod.fst).map Prod.snd = (cols.filter p).map g := by
  induction cols with
  | nil => rfl
  | cons c t ih =>
    cases hp : p c <;> simp [List.filter_cons, hp, ih]

theorem dropNaColumns_shape (cols : List String) (l : RawData) :
    dropNaColumns { columns := cols,
                    rows := l.map (fun e => (e.1, cols.map (rawCell e.2))) } =
      { columns := cols.filter (fun c => l.any (fun e => !(rawCell e.2 c == .na))),
        rows := l.map (fun e => (e.1,
          (cols.filter (fun c => l.any (fun e2 => !(rawCell e2.2 c == .na)))).map
            (rawCell e.2))) } := by
  rw [dropNaColumns]
  have hkeep : (List.range cols.length).map
      (fun j => (l.map (fun e => (e.1, cols.map (rawCell e.2)))).any
        (fun r => !(r.2.getD j .na == .na))) =
      cols.map (fun c => l.any (fun e => !(rawCell e.2 c == .na))) := by
    have h1 : ∀ j, (l.map (fun e => (e.1, cols.map (rawCell e.2)))).any
        (fun r => !(r.2.getD j .na == .na)) =
        l.any (fun e => !((cols.map (rawCell e.2)).getD j .na == .na)) := by
      intro j
      rw [any_map_general]
    simp only [h1]
    exact keep_cols_eq cols (fun e => rawCell e.2) l
  simp only [hkeep]
  congr 1
  · exact maskFilter_map_self cols _
  · rw [List.map_map]
    apply List.map_congr_left
    intro e _
    simp only [Function.comp]
    congr 1
    exact maskFilter_map_map cols _ (rawCell e.2)

theorem dropNaRows_shape (cols : List String) (l : RawData) :
    dropNaRows { columns := cols,
                 rows := l.map (fun e => (e.1, cols.map (rawCell e.2))) } =
      { columns := cols,
        rows := (l.filter (fun e => cols.any (fun c => !(rawCell e.2 c == .na)))).map
          (fun e => (e.1, cols.map (rawCell e.2))) } := by
  rw [dropNaRows]
  congr 1
  rw [List.filter_map]
  congr 1
  apply List.filter_congr
  intro e _
  simp only [Function.comp]
  rw [any_map_general]

theorem ymLe_trans : ∀ a b c : YM, ymLe a b = true → ymLe b c = true → ymLe a c = true := by
  intro a b c hab hbc
  simp only [ymLe, Bool.or_eq_true, decide_eq_true_eq, Bool.and_eq_true, beq_iff_eq] at *
  omega

theorem ymLe_total : ∀ a b : YM, (ymLe a b || ymLe b a) = true := by
  intro a b
  simp only [ymLe, Bool.or_eq_true, decide_eq_true_eq, Bool.and_eq_true, beq_iff_eq]
  omega

theorem ymLe_antisymm : ∀ a b : YM, ymLe a b = true → ymLe b a = true → a = b := by
  intro a b hab hba
  simp only [ymLe, Bool.or_eq_true, decide_eq_true_eq, Bool.and_eq_true, beq_iff_eq] at *
  obtain ⟨x, y⟩ := a
  obtain ⟨z, w⟩ := b
  simp_all
  omega

/-- The kept-column predicate of `clean_station_data`: the parameter has a
non-missing raw value in some month. -/
def colKeep (raw : RawData) (c : String) : Bool :=
  raw.any (fun e => !(rawCell e.2 c == .na))

/-- The kept-row predicate: the month has a non-missing raw value in some
kept column. -/
def rowKeep (raw : RawData) (e : YM × List (String × Cell)) : Bool :=
  ((rawColumns raw).filter (colKeep raw)).any (fun c => !(rawCell e.2 c == .na))

theorem clean_station_data_closed (raw : RawData) (hne : raw ≠ []) :
    ∃ sortedRaw : RawData,
      sortedRaw.Perm raw ∧
      List.Pairwise (fun a b => ymLe a.1 b.1 = true) sortedRaw ∧
      clean_station_data raw = .ok
        { columns := (rawColumns raw).filter (colKeep raw),
          rows := (sortedRaw.filter (rowKeep raw)).map
            (fun e => (e.1, ((rawColumns raw).filter (colKeep raw)).map
              (fun c => to_numeric_coerce (rawCell e.2 c)))) } := by
  have hperm0 : ((raw.map (fun e => (e.1, (rawColumns raw).map (rawCell e.2)))).mergeSort
      (fun a b => ymLe a.1 b.1)).Perm
      (raw.map (fun e => (e.1, (rawColumns raw).map (rawCell e.2)))) :=
    List.mergeSort_perm _ _
  obtain ⟨sortedRaw, hsp, hsmap⟩ := exists_perm_map _ _ raw hperm0
  have hsorted0 : List.Pairwise
      (fun a b => ymLe a.1 b.1 = true)
      ((raw.map (fun e => (e.1, (rawColumns raw).map (rawCell e.2)))).mergeSort
        (fun a b => ymLe a.1 b.1)) :=
    List.sorted_mergeSort (fun a b c => ymLe_trans a.1 b.1 c.1)
      (fun a b => ymLe_total a.1 b.1) _
  have hsorted : List.Pairwise (fun a b => ymLe a.1 b.1 = true) sortedRaw := by
    rw [← hsmap] at hsorted0
    exact (List.pairwise_map.mp hsorted0).imp (fun h => h)
  refine ⟨sortedRaw, hsp, hsorted, ?_⟩
  have hsne : sortedRaw ≠ [] := by
    intro h
    rw [h] at hsp
    exact hne hsp.symm.eq_nil
  have hdf1 : sortIndex (frameOfRaw raw) =
      { columns := rawColumns raw,
        rows := sortedRaw.map (fun e => (e.1, (rawColumns raw).map (rawCell e.2))) } := by
    rw [sortIndex, frameOfRaw]
    rw [hsmap]
  have hany : (fun c => sortedRaw.any (fun e => !(rawCell e.2 c == Cell.na))) = colKeep raw := by
    funext c
    exact any_perm hsp _
  simp only [clean_station_data, hdf1]
  rw [if_neg (by simp [hsne])]
  rw [dropNaColumns_shape, dropNaRows_shape]
  simp only [hany]
  have hfilter : (fun e => ((rawColumns raw).filter (colKeep raw)).any
      (fun c => !(rawCell e.2 c == Cell.na))) = rowKeep raw := rfl
  rw [hfilter]
  congr 1
  rw [List.map_map]
  congr 1
  apply List.map_congr_left
  intro e _
  simp only [Function.comp]
  rw [List.map_map]
  rfl

theorem to_numeric_coerce_res (x : Cell) :
    to_numeric_coerce x = .na ∨ ∃ q, to_numeric_coerce x = .num q := by
  cases x with
  | na => exact Or.inl rfl
  | num q => exact Or.inr ⟨q, rfl⟩
  | str s =>
    rw [to_numeric_coerce]
    match parseNumber s.data with
    | some (.num q, []) => exact Or.inr ⟨q, rfl⟩
    | some (.num q, c :: r) => exact Or.inl rfl
    | some (.str t, r) => exact Or.inl rfl
    | some (.obj fs, r) => exact Or.inl rfl
    | none => exact Or.inl rfl

theorem eq_of_perm_of_pairwise_key {α κ : Type} (key : α → κ) (le : κ → κ → Bool)
    (hanti : ∀ a b, le a b = true → le b a = true → a = b) :
    ∀ {l₁ l₂ : List α}, l₁.Perm l₂ → (l₁.map key).Nodup →
    List.Pairwise (fun a b => le (key a) (key b) = true) l₁ →
    List.Pairwise (fun a b => le (key a) (key b) = true) l₂ → l₁ = l₂ := by
  intro l₁
  induction l₁ with
  | nil =>
    intro l₂ hp _ _ _
    exact hp.symm.eq_nil.symm
  | cons a t ih =>
    intro l₂ hp hn hs₁ hs₂
    simp only [List.map_cons] at hn
    cases l₂ with
    | nil => exact absurd hp.eq_nil (by simp)
    | cons b u =>
      have hab : a = b := by
        by_contra hne
        have hbmem : b ∈ a :: t := hp.mem_iff.mpr (by simp)
        have hamem : a ∈ b :: u := hp.mem_iff.mp (by simp)
        have hbt : b ∈ t := by
          rcases hbmem with _ | h
          · exact absurd rfl hne
          · assumption
        have hau : a ∈ u := by
          rcases hamem with _ | h
          · exact absurd rfl hne
          · assumption
        have h1 : le (key a) (key b) = true := (List.pairwise_cons.mp hs₁).1 b hbt
        have h2 : le (key b) (key a) = true := (List.pairwise_cons.mp hs₂).1 a hau
        have hkey : key a = key b := hanti (key a) (key b) h1 h2
        have : key b ∈ t.map key := List.mem_map_of_mem key hbt
        rw [← hkey] at this
        exact (List.nodup_cons.mp hn).1 this
      subst hab
      have htu : t.Perm u := hp.cons_inv
      rw [ih htu (List.nodup_cons.mp hn).2 (List.pairwise_cons.mp hs₁).2
        (List.pairwise_cons.mp hs₂).2]

theorem sortedUnion_perm {ls₁ ls₂ : List (List String)} (h : ls₁.Perm ls₂) :
    (ls₁.flatten.dedup).mergeSort (fun a b => a ≤ b) =
    (ls₂.flatten.dedup).mergeSort (fun a b => a ≤ b) := by
  have hd : ls₁.flatten.dedup.Perm ls₂.flatten.dedup := h.flatten.dedup
  have hp : ((ls₁.flatten.dedup).mergeSort (fun a b => a ≤ b)).Perm
      ((ls₂.flatten.dedup).mergeSort (fun a b => a ≤ b)) :=
    ((List.mergeSort_perm _ _).trans hd).trans (List.mergeSort_perm _ _).symm
  have hs₁ : List.Sorted (· ≤ ·) ((ls₁.flatten.dedup).mergeSort (fun a b => a ≤ b)) := by
    have := @List.sorted_mergeSort String (fun a b : String => decide (a ≤ b))
      (fun a b c h1 h2 => by
        simp only [decide_eq_true_eq] at *
        exact le_trans h1 h2)
      (fun a b => by
        simp only [Bool.or_eq_true, decide_eq_true_eq]
        exact le_total a b)
      ls₁.flatten.dedup
    exact List.Pairwise.imp (fun h => by simpa using h) this
  have hs₂ : List.Sorted (· ≤ ·) ((ls₂.flatten.dedup).mergeSort (fun a b => a ≤ b)) := by
    have := @List.sorted_mergeSort String (fun a b : String => decide (a ≤ b))
      (fun a b c h1 h2 => by
        simp only [decide_eq_true_eq] at *
        exact le_trans h1 h2)
      (fun a b => by
        simp only [Bool.or_eq_true, decide_eq_true_eq]
        exact le_total a b)
      ls₂.flatten.dedup
    exact List.Pairwise.imp (fun h => by simpa using h) this
  exact List.eq_of_perm_of_sorted hp hs₁ hs₂

theorem rawColumns_perm {raw1 raw2 : RawData} (h : raw1.Perm raw2) :
    rawColumns raw1 = rawColumns raw2 := by
  have hmaps : (raw1.map (fun r => r.2.map Prod.fst)).Perm
      (raw2.map (fun r => r.2.map Prod.fst)) := h.map _
  cases h1 : raw1.map (fun r => r.2.map Prod.fst) with
  | nil =>
    have h2 : raw2.map (fun r => r.2.map Prod.fst) = [] := by
      rw [h1] at hmaps
      exact hmaps.symm.eq_nil
    rw [rawColumns, rawColumns, h1, h2]
  | cons ks rest =>
    cases h2 : raw2.map (fun r => r.2.map Prod.fst) with
    | nil =>
      rw [h1, h2] at hmaps
      exact absurd hmaps.eq_nil (by simp)
    | cons ks2 rest2 =>
      rw [h1, h2] at hmaps
      simp only [rawColumns, h1, h2]
      by_cases hall : ∀ x ∈ ks :: rest, x = ks
      · have hall2 : ∀ x ∈ ks2 :: rest2, x = ks :=
          fun x hx => hall x (hmaps.mem_iff.mpr hx)
        have hks2 : ks2 = ks := hall2 ks2 (by simp)
        have e1 : rest.all (fun l => l == ks) = true := by
          rw [List.all_eq_true]
          intro x hx
          simpa using hall x (by simp [hx])
        have e2 : rest2.all (fun l => l == ks2) = true := by
          rw [List.all_eq_true]
          intro x hx
          rw [hks2]
          simpa using hall2 x (by simp [hx])
        rw [if_pos e1, if_pos e2, hks2]
      · have hall2 : ¬ ∀ x ∈ ks2 :: rest2, x = ks2 := by
          intro hc
          apply hall
          intro x hx
          have hx2 := hc x (hmaps.mem_iff.mp hx)
          have hks : ks = ks2 := hc ks (hmaps.mem_iff.mp (by simp))
          rw [hx2, hks]
        have e1 : ¬ (rest.all (fun l => l == ks) = true) := by
          intro hc
          apply hall
          intro x hx
          rcases hx with _ | hx
          · rfl
          · simpa using (List.all_eq_true.mp hc) x (by assumption)
        have e2 : ¬ (rest2.all (fun l => l == ks2) = true) := by
          intro hc
          apply hall2
          intro x hx
          rcases hx with _ | hx
          · rfl
          · simpa using (List.all_eq_true.mp hc) x (by assumption)
        rw [if_neg e1, if_neg e2]
        exact sortedUnion_perm hmaps

theorem ymLe_iff (a b : YM) :
    (ymLe a b = true) ↔ (a.1 < b.1 ∨ (a.1 = b.1 ∧ a.2 ≤ b.2)) := by
  simp [ymLe]

/-- Claim C7 (corrected): for every nonempty raw keyed input (the empty dict
raises, see the counterexample), `clean_station_data` returns a table whose
rows are the input months sorted by `(year, month)`, with the all-missing
columns dropped first (a column is kept iff some month has a non-missing
raw value for it), then the all-missing rows dropped (kept iff some kept
column has a non-missing raw value), and every remaining cell the numeric
coercion of the raw value — so every cell is a number or missing, never a
string and never an error. -/
theorem clean_station_data_builds_table (raw : RawData) (hne : raw ≠ []) :
    ∃ sortedRaw : RawData,
      sortedRaw.Perm raw ∧
      List.Pairwise (fun a b : YM × List (String × Cell) =>
        a.1.1 < b.1.1 ∨ (a.1.1 = b.1.1 ∧ a.1.2 ≤ b.1.2)) sortedRaw ∧
      clean_station_data raw = .ok
        { columns := (rawColumns raw).filter (colKeep raw),
          rows := (sortedRaw.filter (rowKeep raw)).map
            (fun e => (e.1, ((rawColumns raw).filter (colKeep raw)).map
              (fun c => to_numeric_coerce (rawCell e.2 c)))) } ∧
      (∀ df, clean_station_data raw = .ok df →
        (df.rows.map Prod.fst).Pairwise
          (fun a b : YM => a.1 < b.1 ∨ (a.1 = b.1 ∧ a.2 ≤ b.2)) ∧
        ∀ r ∈ df.rows, ∀ c ∈ r.2, c = Cell.na ∨ ∃ q, c = Cell.num q) := by
  obtain ⟨sortedRaw, hp, hs, hc⟩ := clean_station_data_closed raw hne
  have hs' : List.Pairwise (fun a b : YM × List (String × Cell) =>
      a.1.1 < b.1.1 ∨ (a.1.1 = b.1.1 ∧ a.1.2 ≤ b.1.2)) sortedRaw :=
    hs.imp (fun h => (ymLe_iff _ _).mp h)
  refine ⟨sortedRaw, hp, hs', hc, ?_⟩
  intro df hdf
  rw [hc] at hdf
  have hdf' := (Except.ok.inj hdf).symm
  subst hdf'
  constructor
  · rw [List.map_map]
    rw [List.pairwise_map]
    exact (List.Pairwise.sublist (List.filter_sublist _) hs').imp (fun h => h)
  · intro r hr c hcell
    obtain ⟨e, _, rfl⟩ := List.mem_map.mp hr
    obtain ⟨c0, _, rfl⟩ := List.mem_map.mp hcell
    exact to_numeric_coerce_res _

/-- Claim C7 counterexample: the empty raw input — the claim quantifies
over every raw keyed input, but `zip(*df.index)` in `clean_station_data`
raises `ValueError` on an empty frame instead of returning a table. -/
theorem clean_station_data_empty_raises :
    clean_station_data ([] : RawData) =
      .error (.valueError "not enough values to unpack (expected 2, got 0)") := by
  simp [clean_station_data, sortIndex, frameOfRaw, rawColumns, List.mergeSort]

/-- Claim C7 witness: a two-month input with an all-missing column `e`, an
all-missing month `(2000, 1)` (in its kept columns) and a numeric value;
the builder keeps column `t` and month `(2001, 2)` only. -/
theorem clean_station_data_builds_table_witness :
    clean_station_data
        [((2001, 2), [("t", Cell.num 5), ("e", Cell.na)]),
         ((2000, 1), [("t", Cell.na), ("e", Cell.na)])] =
      .ok { columns := ["t"], rows := [((2001, 2), [Cell.num 5])] } ∧
    (clean_station_data
        [((2001, 2), [("t", Cell.num 5), ("e", Cell.na)]),
         ((2000, 1), [("t", Cell.na), ("e", Cell.na)])]).isOk = true := by
  constructor
  · simp [clean_station_data, sortIndex, frameOfRaw, rawColumns, List.mergeSort,
      dropNaColumns, dropNaRows, rawCell, ymLe, to_numeric_coerce, List.merge,
      List.lookup, List.range_succ,
      show (("t" : String) == "e") = false from rfl,
      show (("e" : String) == "e") = true from rfl,
      show (("t" : String) == "t") = true from rfl,
      show (("e" : String) == "t") = false from rfl]
  · obtain ⟨sr, -, -, h3, -⟩ := clean_station_data_builds_table
      [((2001, 2), [("t", Cell.num 5), ("e", Cell.na)]),
       ((2000, 1), [("t", Cell.na), ("e", Cell.na)])]
      (by simp)
    rw [h3]
    rfl

/-- Claim C9 (confirmed): `clean_station_data` is a pure function (building
twice from the same input trivially yields the same table), and its result
is invariant under re-enumerating the input dict's `(year, month)` keys:
for any permutation of a duplicate-free raw input, the built tables are
identical. -/
theorem clean_station_data_order_independent (raw1 raw2 : RawData)
    (hperm : raw1.Perm raw2) (hnd : (raw1.map Prod.fst).Nodup) :
    clean_station_data raw1 = clean_station_data raw2 := by
  by_cases hne : raw1 = []
  · subst hne
    have h2 : raw2 = [] := hperm.symm.eq_nil
    rw [h2]
  · have hne2 : raw2 ≠ [] := by
      intro h
      rw [h] at hperm
      exact hne hperm.eq_nil
    obtain ⟨s1, hp1, hs1, hc1⟩ := clean_station_data_closed raw1 hne
    obtain ⟨s2, hp2, hs2, hc2⟩ := clean_station_data_closed raw2 hne2
    rw [hc1, hc2]
    have hcols : rawColumns raw1 = rawColumns raw2 := rawColumns_perm hperm
    have hck : colKeep raw1 = colKeep raw2 := by
      funext c
      exact any_perm hperm _
    have hrk : rowKeep raw1 = rowKeep raw2 := by
      funext e
      rw [rowKeep, rowKeep, hcols, hck]
    have hs12 : s1 = s2 :=
      eq_of_perm_of_pairwise_key Prod.fst ymLe ymLe_antisymm
        (hp1.trans (hperm.trans hp2.symm))
        (hnd.perm (hp1.map Prod.fst).symm) hs1 hs2
    rw [hcols, hck, hrk, hs12]

/-- Claim C9 witness: the same two-month input enumerated in two different
orders builds the identical table. -/
theorem clean_station_data_order_independent_witness :
    clean_station_data [((2000, 1), [("a", Cell.num 1)]), ((2000, 2), [("b", Cell.num 2)])] =
      clean_station_data [((2000, 2), [("b", Cell.num 2)]), ((2000, 1), [("a", Cell.num 1)])] :=
  clean_station_data_order_independent _ _ (by decide) (by decide)

/-- Cell access in a frame: `none` when the column label is absent or the
row key is absent; otherwise the cell at the row and the column's (first)
position. -/
def Frame.atCell {κ γ : Type} [BEq κ] [BEq γ] (fr : Frame κ γ) (k : κ) (c : γ) :
    Option Cell :=
  if fr.columns.any (fun x => x == c) then
    (fr.rows.lookup k).map (fun row => row.getD (fr.columns.findIdx (fun x => x == c)) .na)
  else none

theorem lookup_map_self {κ β : Type} [BEq κ] [LawfulBEq κ] (l : List κ) (g : κ → β) (k : κ)
    (hk : k ∈ l) : (l.map (fun m => (m, g m))).lookup k = some (g k) := by
  induction l with
  | nil => cases hk
  | cons a t ih =>
    by_cases hak : a = k
    · subst hak
      simp [List.lookup]
    · have hkt : k ∈ t := by
        rcases hk with _ | h
        · exact absurd rfl hak
        · assumption
      have hbeq : (k == a) = false := beq_false_of_ne (fun h => hak h.symm)
      simp [List.lookup, hbeq, ih hkt]

theorem map_getD_findIdx {γ : Type} [BEq γ] [LawfulBEq γ] (l : List γ) (g : γ → Cell) (x : γ)
    (hx : x ∈ l) : (l.map g).getD (l.findIdx (fun y => y == x)) .na = g x := by
  induction l with
  | nil => cases hx
  | cons a t ih =>
    by_cases hax : a = x
    · subst hax
      simp [List.findIdx_cons]
    · have hxt : x ∈ t := by
        rcases hx with _ | h
        · exact absurd rfl hax
        · assumption
      have hbeq : (a == x) = false := beq_false_of_ne hax
      simp only [List.findIdx_cons, hbeq, cond_false, List.map_cons, List.getD_cons_succ]
      exact ih hxt

theorem groupMonths_sorted (df : Frame YM String) :
    (groupMonths df).Pairwise (· < ·) ∧ (groupMonths df).Nodup ∧
    (∀ m : Nat, m ∈ groupMonths df ↔ m ∈ df.rows.map (fun r => r.1.2)) := by
  have hnd : (groupMonths df).Nodup := by
    rw [groupMonths]
    exact (List.nodup_dedup _).perm (List.mergeSort_perm _ _).symm
  have hle : List.Sorted (· ≤ ·) (groupMonths df) := by
    rw [groupMonths]
    have hms := @List.sorted_mergeSort Nat (fun a b : Nat => decide (a ≤ b))
      (fun a b c h1 h2 => by
        simp only [decide_eq_true_eq] at *
        omega)
      (fun a b => by
        simp only [Bool.or_eq_true, decide_eq_true_eq]
        omega)
      ((df.rows.map (fun r => r.1.2)).dedup)
    exact List.Pairwise.imp (fun h => by simpa using h) hms
  refine ⟨hle.lt_of_le hnd, hnd, ?_⟩
  intro m
  rw [groupMonths, List.mem_mergeSort, List.mem_dedup]

/-- The spec's aggregation example: two Januaries, values 10 and missing,
for a sum-aggregated parameter. -/
def exampleJanuaryFrame : Frame YM String :=
  { columns := ["precip"], rows := [((2000, 1), [Cell.num 10]), ((2001, 1), [Cell.na])] }

/-- Claim C8 (confirmed): the Aggregator keeps, of the catalog's
aggregation mapping, exactly the parameters present as table columns (in
mapping order); its rows are the distinct months of the table, ascending,
grouped across all years; and every cell is the column's aggregation
function applied to that month's cells, with post-aggregation missing
values replaced by zero and the result rounded to 2 decimal places — in
particular two January rows `[10, missing]` under a `sum` parameter
aggregate to January value 10. -/
theorem aggregate_station_data_spec (aggMapping : List (String × AggFn))
    (df : Frame YM String) :
    (aggregate_station_data aggMapping df).columns =
      aggMapping.filter (fun p => df.columns.contains p.1) ∧
    ((aggregate_station_data aggMapping df).rows.map Prod.fst).Pairwise (· < ·) ∧
    (∀ m : Nat, m ∈ (aggregate_station_data aggMapping df).rows.map Prod.fst ↔
      m ∈ df.rows.map (fun r => r.1.2)) ∧
    (∀ m ∈ (aggregate_station_data aggMapping df).rows.map Prod.fst,
      ∀ p ∈ (aggregate_station_data aggMapping df).columns,
      (aggregate_station_data aggMapping df).atCell m p =
        some (round2 (fillZero (aggApply p.2 (monthColumn df m p.1))))) ∧
    aggregate_station_data [("precip", AggFn.sum)] exampleJanuaryFrame =
      { columns := [("precip", AggFn.sum)], rows := [(1, [Cell.num 10])] } := by
  obtain ⟨hlt, hnodup, hmem⟩ := groupMonths_sorted df
  have hrowsmap : (aggregate_station_data aggMapping df).rows.map Prod.fst = groupMonths df := by
    rw [aggregate_station_data]
    rw [List.map_map]
    exact List.map_id _
  refine ⟨rfl, ?_, ?_, ?_, ?_⟩
  · rw [hrowsmap]
    exact hlt
  · intro m
    rw [hrowsmap]
    exact hmem m
  · intro m hm p hp
    rw [hrowsmap] at hm
    have hpcols : p ∈ aggMapping.filter (fun p => df.columns.contains p.1) := hp
    rw [Frame.atCell]
    rw [if_pos (List.any_eq_true.mpr ⟨p, hp, by simp⟩)]
    rw [show (aggregate_station_data aggMapping df).rows =
      (groupMonths df).map (fun m => (m,
        (aggMapping.filter (fun p => df.columns.contains p.1)).map
          (fun p => round2 (fillZero (aggApply p.2 (monthColumn df m p.1)))))) from rfl]
    rw [lookup_map_self _ _ m hm]
    rw [Option.map_some']
    congr 1
    exact map_getD_findIdx _ _ p hpcols
  · have hmonths : groupMonths exampleJanuaryFrame = [1] := by
      simp [groupMonths, exampleJanuaryFrame, List.mergeSort]
    rw [aggregate_station_data, hmonths]
    have hfilt : List.filter (fun p => exampleJanuaryFrame.columns.contains p.1)
        [("precip", AggFn.sum)] = [("precip", AggFn.sum)] := by
      simp [exampleJanuaryFrame, show (["precip"].contains "precip") = true from rfl]
    rw [hfilt]
    have hcell : round2 (fillZero (aggApply AggFn.sum
        (monthColumn exampleJanuaryFrame 1 "precip"))) = Cell.num 10 := by
      have hmc : monthColumn exampleJanuaryFrame 1 "precip" = [Cell.num 10, Cell.na] := by
        simp [monthColumn, exampleJanuaryFrame, List.findIdx_cons]
      rw [hmc]
      rw [show aggApply AggFn.sum [Cell.num 10, Cell.na] = Cell.num 10 from by
        simp [aggApply, numericValues]]
      rw [show fillZero (Cell.num 10) = Cell.num 10 from rfl]
      rw [round2]
      have hfloor : roundHalfEven ((10 : Rat) * 100) = 1000 := by
        rw [roundHalfEven]
        rw [show ((10 : Rat) * 100) = ((1000 : Int) : Rat) from by norm_num]
        rw [Int.floor_intCast]
        norm_num
      rw [hfloor]
      norm_num
    simp only [List.map_cons, List.map_nil]
    rw [hcell]

/-- Claim C8 witness: the spec's aggregation example extracted from the
claim theorem — two Januaries `[10, missing]` under `sum` aggregate to a
January row holding 10 (filled and rounded). -/
theorem aggregate_station_data_spec_witness :
    aggregate_station_data [("precip", AggFn.sum)] exampleJanuaryFrame =
      { columns := [("precip", AggFn.sum)], rows := [(1, [Cell.num 10])] } :=
  (aggregate_station_data_spec [("precip", AggFn.sum)] exampleJanuaryFrame).2.2.2.2
